import Mathlib

/-!
# Verification of the Compsheet filtering / format-classification core

This file shallowly embeds the core logic of the Compsheet repository:

* `src/lib/formatUtils.ts` — `detectColumnFormat`, `createFormatMap`;
* `src/App.tsx` — the `filteredData` memo (effective criteria, the
  `columnIsDecimal` map, and the per-row predicate);
* `src/components/DataTable.tsx` — `sortedData` and the summary
  average/median computation.

JavaScript dynamic values are embedded as the tagged union `RawValue`
(number / string / null / undefined); JavaScript numbers are modelled as
rationals (the data originates from JSON, which carries neither `NaN` nor
infinities).  `Number(string)` coercion is modelled for decimal numeric
literals (optional sign, integer/fraction digits, optional exponent) with
whitespace trimming and the `"" ↦ 0` rule; the `"Infinity"` literal forms,
which a finite-rational model cannot carry, are handled by the
Infinity-aware `JsNum` re-embedding of the numeric filter path below
(`jsNumberCharsExt_agrees` shows the two models agree everywhere else);
radix-prefixed literal forms are outside the model.  `Array.prototype.sort`
(a stable comparison sort) is modelled as a stable insertion sort.
-/

/-- Cell values: a JS value that is a number, a string, `null`, or absent
(`undefined`). -/
inductive RawValue where
  | num (q : ℚ)
  | str (s : String)
  | null
  | undef
deriving DecidableEq, Repr

/-- A data row: an association list from column names to cell values
(models a JS object; absent keys read as `undefined`). -/
abbrev Row := List (String × RawValue)

/-- `row[col]` — property lookup, `undefined` when the key is absent. -/
def rowGet (row : Row) (col : String) : RawValue :=
  match row.find? (fun p => p.1 == col) with
  | some p => p.2
  | none => RawValue.undef

/-- JS whitespace characters (the forms relevant to this data). -/
def isWsChar (c : Char) : Bool :=
  c == ' ' || c == '\t' || c == '\n' || c == '\r'

/-- Trim leading and trailing whitespace from a character list
(models `String.prototype.trim` / the trimming done by `Number`). -/
def trimChars (cs : List Char) : List Char :=
  ((cs.dropWhile isWsChar).reverse.dropWhile isWsChar).reverse

/-- Numeric value of a (most-significant-first) digit list. -/
def digitsToNat (l : List Char) : ℕ :=
  l.foldl (fun a c => 10 * a + (c.toNat - 48)) 0

/-- Rational addition, written out on numerators and denominators.
Batteries marks `Rat.add` irreducible, which blocks kernel evaluation;
this computable mirror is proved equal to `+` in `qadd_eq` below. -/
def qadd (a b : ℚ) : ℚ :=
  mkRat (a.num * b.den + b.num * a.den) (a.den * b.den)

/-- Rational division, written out on numerators and denominators
(`qdiv a 0 = 0`, as in `ℚ`); proved equal to `/` in `qdiv_eq` below. -/
def qdiv (a b : ℚ) : ℚ :=
  mkRat (a.num * b.num.sign * b.den) (a.den * b.num.natAbs)

/-- Sum of a list of rationals; proved equal to `List.sum` in
`qsum_eq` below. -/
def qsum (l : List ℚ) : ℚ :=
  l.foldr qadd 0

/-- `q · 10^z`, written out on the numerator or denominator; proved
equal to the `zpow` form in `scaleByPow10_eq` below. -/
def scaleByPow10 (q : ℚ) (z : ℤ) : ℚ :=
  if 0 ≤ z then mkRat (q.num * 10 ^ z.toNat) q.den
  else mkRat q.num (q.den * 10 ^ (-z).toNat)

/-- Exponent suffix of a JS decimal literal: optional sign then one or
more digits, consuming the whole remainder; scales the mantissa by the
corresponding power of ten. -/
def parseExpDigits (q : ℚ) (cs : List Char) : Option ℚ :=
  let p : ℤ × List Char :=
    match cs with
    | '+' :: rest => (1, rest)
    | '-' :: rest => (-1, rest)
    | _ => (1, cs)
  if p.2.isEmpty || !p.2.all Char.isDigit then none
  else some (scaleByPow10 q (p.1 * (digitsToNat p.2 : ℤ)))

/-- Rest of a JS decimal literal after the mantissa: empty, or an
`e`/`E` exponent part. -/
def parseExp (q : ℚ) (cs : List Char) : Option ℚ :=
  match cs with
  | [] => some q
  | c :: rest => if c = 'e' || c = 'E' then parseExpDigits q rest else none

/-- Unsigned JS decimal literal: digits, optional `.` and fraction
digits (at least one digit overall), optional exponent.  The mantissa
`ip.fp` has the exact rational value `(ip·10^|fp| + fp) / 10^|fp|`. -/
def parseUnsignedDec (cs : List Char) : Option ℚ :=
  let ip := cs.takeWhile Char.isDigit
  let rest := cs.dropWhile Char.isDigit
  match rest with
  | [] => if ip.isEmpty then none else some (digitsToNat ip : ℚ)
  | c :: rest2 =>
    if c = '.' then
      let fp := rest2.takeWhile Char.isDigit
      let rest3 := rest2.dropWhile Char.isDigit
      if ip.isEmpty && fp.isEmpty then none
      else parseExp (mkRat (digitsToNat ip * 10 ^ fp.length + digitsToNat fp) (10 ^ fp.length)) rest3
    else if ip.isEmpty then none
    else parseExp (digitsToNat ip : ℚ) (c :: rest2)

/-- Signed JS decimal literal. -/
def parseDec (cs : List Char) : Option ℚ :=
  match cs with
  | c :: rest =>
    if c = '+' then parseUnsignedDec rest
    else if c = '-' then (parseUnsignedDec rest).map Neg.neg
    else parseUnsignedDec (c :: rest)
  | [] => parseUnsignedDec []

/-- `Number()` applied to the string with these characters: trim; the
empty string coerces to `0`; otherwise parse a decimal literal, `none`
standing for `NaN`. -/
def jsNumberChars (cs : List Char) : Option ℚ :=
  let t := trimChars cs
  if t.isEmpty then some 0 else parseDec t

/-- `Number()` on a string. -/
def jsNumberStr (s : String) : Option ℚ :=
  jsNumberChars s.data

/-- Digits of the fractional part `num/den` (with `num < den`),
up to `fuel` digits. -/
def fracDigits : ℕ → ℕ → ℕ → List Char
  | 0, _, _ => []
  | _ + 1, 0, _ => []
  | fuel + 1, num, den =>
    Char.ofNat (48 + num * 10 / den) :: fracDigits fuel (num * 10 % den) den

/-- JS `ToString` on a number, for values with a terminating decimal
expansion (all values arising in this development); at most 20
fractional digits are emitted. -/
def ratToString (q : ℚ) : String :=
  let sgn := if q < 0 then "-" else ""
  let n := q.num.natAbs
  let intPart := toString (n / q.den)
  let rem := n % q.den
  if rem = 0 then sgn ++ intPart
  else sgn ++ intPart ++ "." ++ String.mk (fracDigits 20 rem q.den)

/-- JS `String(v)`. -/
def jsToString : RawValue → String
  | RawValue.num q => ratToString q
  | RawValue.str s => s
  | RawValue.null => "null"
  | RawValue.undef => "undefined"

/-- `Number(v)` on a raw value: numbers pass through, `null ↦ 0`,
`undefined ↦ NaN`, strings parse as decimal literals. -/
def jsNumber : RawValue → Option ℚ
  | RawValue.num q => some q
  | RawValue.null => some 0
  | RawValue.undef => none
  | RawValue.str s => jsNumberStr s

/-- Characters kept by the strip regex `[^0-9.\-]` replacement. -/
def keepNumChar (c : Char) : Bool :=
  c.isDigit || c == '.' || c == '-'

/-- The filter's numeric coercion (App.tsx lines 115–122): direct
`Number(val)`; if that is `NaN` and the value is a string, strip all
characters other than digits, `.` and `-`, and retry. -/
def coerceWithStrip (v : RawValue) : Option ℚ :=
  match jsNumber v with
  | some q => some q
  | none =>
    match v with
    | RawValue.str s => jsNumberChars (s.data.filter keepNumChar)
    | _ => none

/-- Is `needle` a prefix of `hay`? -/
def prefixB : List Char → List Char → Bool
  | [], _ => true
  | _ :: _, [] => false
  | a :: as, b :: bs => a == b && prefixB as bs

/-- Does `hay` contain `needle` as a contiguous run? -/
def containsSub (needle : List Char) : List Char → Bool
  | [] => needle.isEmpty
  | c :: rest => prefixB needle (c :: rest) || containsSub needle rest

/-- JS `s.includes(sub)`. -/
def strContains (s sub : String) : Bool :=
  containsSub sub.data s.data

/-- JS `s.toLowerCase()`, character by character. -/
def lowerStr (s : String) : String :=
  String.mk (s.data.map Char.toLower)

/-- Insert `x` before the first element `y` with `le x y`
(one step of a stable insertion sort). -/
def insertSorted {α : Type} (le : α → α → Bool) (x : α) : List α → List α
  | [] => [x]
  | y :: ys => if le x y then x :: y :: ys else y :: insertSorted le x ys

/-- Stable insertion sort by the boolean relation `le`
(models JS `Array.prototype.sort` with comparator `cmp`, taking
`le a b := cmp a b ≤ 0`). -/
def insertionSortB {α : Type} (le : α → α → Bool) : List α → List α
  | [] => []
  | x :: xs => insertSorted le x (insertionSortB le xs)

/-- Element at index `n`, `0` past the end (models an in-bounds JS
index access on a number array). -/
def nthD (l : List ℚ) (n : ℕ) : ℚ :=
  match l, n with
  | [], _ => 0
  | a :: _, 0 => a
  | _ :: t, n + 1 => nthD t n

/-- Ascending order on rationals, as a boolean. -/
def qle (a b : ℚ) : Bool := a ≤ b

/-! ## Column format classifier (`src/lib/formatUtils.ts`) -/

/-- The format tags returned by `detectColumnFormat`. -/
inductive FormatTag where
  | currency
  | currency_millions
  | percentage
  | percentage_decimal
  | decimal
  | number
  | text
deriving DecidableEq, Repr

/-- The classifier's per-value numeric coercion (formatUtils.ts lines
19–22 / 45–48): numbers pass through; anything else is `String(v)` with
non-numeric characters stripped, then `Number(...)`. -/
def detectCoerce (v : RawValue) : Option ℚ :=
  match v with
  | RawValue.num q => some q
  | _ => jsNumberChars ((jsToString v).data.filter keepNumChar)

/-- Numeric samples the classifier works with: coerce every value and
drop the `NaN`s. -/
def detectNumeric (values : List RawValue) : List ℚ :=
  values.filterMap detectCoerce

/-- The classifier's median: element at index `⌊n/2⌋` of the
ascending-sorted absolute values (formatUtils.ts lines 26–27 / 51–52). -/
def medianAbs (l : List ℚ) : ℚ :=
  nthD (insertionSortB qle (l.map (fun q => |q|))) (l.length / 2)

/-- Ratio/multiple column-name keywords (checked first). -/
def ratioNameHit (lowerName : String) : Bool :=
  strContains lowerName "ev/" || strContains lowerName "/rev" ||
  strContains lowerName "/fcf" || strContains lowerName "/ebitda" ||
  strContains lowerName "/g" || strContains lowerName "ratio" ||
  strContains lowerName "multiple"

/-- Percentage-family column-name keywords. -/
def pctNameHit (lowerName : String) : Bool :=
  strContains lowerName "margin" || strContains lowerName "growth" ||
  strContains lowerName "%" || strContains lowerName "yield" ||
  strContains lowerName "roe" || strContains lowerName "roa"

/-- Currency-family column-name keywords. -/
def currencyNameHit (lowerName : String) : Bool :=
  strContains lowerName "$" || strContains lowerName "price" ||
  strContains lowerName "cap" || strContains lowerName "revenue" ||
  strContains lowerName "fcf" || strContains lowerName "ebitda" ||
  strContains lowerName "ev ("

/-- Is the value a number of JS type `number` (and not `NaN`)? -/
def isNumType (v : RawValue) : Bool :=
  match v with
  | RawValue.num _ => true
  | _ => false

/-- `detectColumnFormat` (formatUtils.ts lines 2–71): priority chain of
ratio keywords, percentage keywords (with the median-below-2 decimal
heuristic), currency keywords (with the median-below-10000 millions
heuristic), majority-numeric default, else text. -/
def detectColumnFormat (columnName : String) (values : List RawValue) : FormatTag :=
  let lowerName := lowerStr columnName
  if ratioNameHit lowerName then FormatTag.decimal
  else if pctNameHit lowerName then
    let numericValues := detectNumeric values
    if !numericValues.isEmpty && decide (medianAbs numericValues < 2) then
      FormatTag.percentage_decimal
    else FormatTag.percentage
  else if currencyNameHit lowerName then
    let numericValues := detectNumeric values
    if !numericValues.isEmpty && decide (medianAbs numericValues < 10000) then
      FormatTag.currency_millions
    else FormatTag.currency
  else
    let numericValues := values.filter isNumType
    if 2 * numericValues.length > values.length then FormatTag.number
    else FormatTag.text

/-- Column keys of a row (models `Object.keys(data[0])`). -/
def rowKeys (row : Row) : List String :=
  row.map (fun p => p.1)

/-- Value extraction used by `createFormatMap` (formatUtils.ts line
141): all values of the column, dropping `undefined` and `''`. -/
def tableColumnValues (data : List Row) (col : String) : List RawValue :=
  (data.map (fun row => rowGet row col)).filter
    (fun v => !(v == RawValue.undef) && !(v == RawValue.str ""))

/-- `createFormatMap` (formatUtils.ts lines 134–146), as a lookup
function: `none` models an absent record entry. -/
def createFormatMap (data : List Row) : String → Option FormatTag :=
  match data with
  | [] => fun _ => none
  | first :: _ => fun col =>
    if (rowKeys first).contains col then
      some (detectColumnFormat col (tableColumnValues data col))
    else none

/-! ## Filter engine (`src/App.tsx`, the `filteredData` memo) -/

/-- A filter criterion (`src/types.ts`): optional `min`/`max` bounds
(number or string; `undef` models the absent optional field), optional
substring `text`, and the `active` display flag. -/
structure Criterion where
  id : String
  column : String
  min : RawValue := RawValue.undef
  max : RawValue := RawValue.undef
  text : Option String := none
  active : Bool := true
deriving DecidableEq, Repr

/-- `c.min !== undefined && c.min !== ''`. -/
def hasMinB (c : Criterion) : Bool :=
  !(c.min == RawValue.undef) && !(c.min == RawValue.str "")

/-- `c.max !== undefined && c.max !== ''`. -/
def hasMaxB (c : Criterion) : Bool :=
  !(c.max == RawValue.undef) && !(c.max == RawValue.str "")

/-- `c.text !== undefined && c.text.trim() !== ''`. -/
def hasTextB (c : Criterion) : Bool :=
  match c.text with
  | none => false
  | some t => !(trimChars t.data).isEmpty

/-- An effective criterion: at least one of min, max, text is set
(App.tsx lines 70–74). -/
def isEffective (c : Criterion) : Bool :=
  hasMinB c || hasMaxB c || hasTextB c

/-- Value extraction used by the filter's classification pass (App.tsx
line 84): all values of the column over the full row set, dropping
`undefined` and `''`. -/
def appColumnValues (data : List Row) (col : String) : List RawValue :=
  (data.map (fun r => rowGet r col)).filter
    (fun v => !(v == RawValue.undef) && !(v == RawValue.str ""))

/-- The `columnIsDecimal` map (App.tsx lines 79–91) as the list of
keys set to `true`: columns of effective criteria whose classification
over the full row set is `percentage_decimal`; empty when there are no
rows. -/
def decimalCols (data : List Row) (effCs : List Criterion) : List String :=
  if data.isEmpty then []
  else
    (effCs.filter (fun c =>
      detectColumnFormat c.column (appColumnValues data c.column)
        == FormatTag.percentage_decimal)).map (fun c => c.column)

/-- Per-criterion row evaluation (App.tsx lines 95–176).  `isDec` is
`columnIsDecimal.get(c.column)`: when set, `min`/`max` bounds (never the
cell value) are divided by 100 before the inclusive comparison. -/
def evalCriterion (isDec : Bool) (row : Row) (c : Criterion) : Bool :=
  let val := rowGet row c.column
  let hMin := hasMinB c
  let hMax := hasMaxB c
  let hText := hasTextB c
  if !hMin && !hMax && !hText then true
  else if val == RawValue.undef || val == RawValue.null || val == RawValue.str "" then
    false
  else
    let numericOk :=
      if hMin || hMax then
        match coerceWithStrip val with
        | none => false
        | some numVal =>
          let minOk :=
            if hMin then
              match coerceWithStrip c.min with
              | none => false
              | some m => decide ((if isDec then qdiv m 100 else m) ≤ numVal)
            else true
          let maxOk :=
            if hMax then
              match coerceWithStrip c.max with
              | none => false
              | some mx => decide (numVal ≤ (if isDec then qdiv mx 100 else mx))
            else true
          minOk && maxOk
      else true
    let textOk :=
      if hText then
        match c.text with
        | some t => strContains (lowerStr (jsToString val)) (lowerStr t)
        | none => true
      else true
    numericOk && textOk

/-- The `filteredData` computation (App.tsx lines 67–178): keep the
rows satisfying every effective criterion, with per-column decimal
scaling derived from the full row set; with no effective criteria the
row set is returned unchanged. -/
def filteredData (data : List Row) (criteria : List Criterion) : List Row :=
  let eff := criteria.filter isEffective
  if eff.isEmpty then data
  else
    let decCols := decimalCols data eff
    data.filter (fun row =>
      eff.all (fun c => evalCriterion (decCols.contains c.column) row c))

/-! ## Table sorting and aggregates (`src/components/DataTable.tsx`) -/

/-- Missing-for-sorting test: `null`, `undefined` or `''`. -/
def isMissingB (v : RawValue) : Bool :=
  v == RawValue.null || v == RawValue.undef || v == RawValue.str ""

/-- `comparator(a,b) ≤ 0` for the sort comparator of DataTable.tsx
lines 32–57: missing values compare greater than everything (the
comparator returns `1` when `a` is missing and `-1` when `b` is);
otherwise numeric comparison when both sides coerce, else
case-insensitive string comparison; `asc` selects the direction. -/
def sortLe (asc : Bool) (col : String) (a b : Row) : Bool :=
  let aVal := rowGet a col
  let bVal := rowGet b col
  if isMissingB aVal then false
  else if isMissingB bVal then true
  else
    match jsNumber aVal, jsNumber bVal with
    | some x, some y => if asc then decide (x ≤ y) else decide (y ≤ x)
    | _, _ =>
      let aS := lowerStr (jsToString aVal)
      let bS := lowerStr (jsToString bVal)
      if asc then decide (aS ≤ bS) else decide (bS ≤ aS)

/-- `sortedData` (DataTable.tsx lines 29–60): unchanged without a sort
config, else a stable sort by the comparator. -/
def sortedRows (cfg : Option (String × Bool)) (data : List Row) : List Row :=
  match cfg with
  | none => data
  | some (col, asc) => insertionSortB (sortLe asc col) data

/-- Values feeding a column's summary statistics (DataTable.tsx lines
122–124): `Number(row[col])` for every row, `NaN`s dropped. -/
def aggValues (data : List Row) (col : String) : List ℚ :=
  (data.map (fun row => jsNumber (rowGet row col))).filterMap id

/-- Summary average (DataTable.tsx lines 127–129); `none` when the
column has no numeric values (the column is omitted). -/
def aggAverage (data : List Row) (col : String) : Option ℚ :=
  let values := aggValues data col
  if values.isEmpty then none
  else some (qdiv (qsum values) (values.length : ℚ))

/-- Summary median (DataTable.tsx lines 131–136): middle element for
odd counts, mean of the two middle elements for even counts. -/
def aggMedian (data : List Row) (col : String) : Option ℚ :=
  let values := aggValues data col
  if values.isEmpty then none
  else
    let sorted := insertionSortB qle values
    let mid := sorted.length / 2
    some (if sorted.length % 2 ≠ 0 then nthD sorted mid
          else qdiv (qadd (nthD sorted (mid - 1)) (nthD sorted mid)) 2)

/-- The aggregate median of a bare value list (the same rule as
`aggMedian`, exposed for comparison with the classifier's median). -/
def aggMedianList (values : List ℚ) : ℚ :=
  let sorted := insertionSortB qle values
  let mid := sorted.length / 2
  if sorted.length % 2 ≠ 0 then nthD sorted mid
  else qdiv (qadd (nthD sorted (mid - 1)) (nthD sorted mid)) 2

/-! ## Infinity-aware extension of the numeric filter path

`jsNumberChars` covers only finite decimal literals, but JS `Number`
also maps the trimmed strings `"Infinity"`, `"+Infinity"` and
`"-Infinity"` to the two infinities, which a finite-rational model
cannot carry.  The `JsNum` functions below re-embed the numeric filter
path of App.tsx lines 108–163 with the infinities represented, and
`jsNumberCharsExt_agrees` shows the finite model is exact away from
those three literal forms. -/

/-- A JS number that is not `NaN`: finite, or one of the infinities. -/
inductive JsNum where
  | fin (q : ℚ)
  | posInf
  | negInf
deriving DecidableEq, Repr

/-- `Number()` on a character list, with the `Infinity` literal forms
included: trim; empty is `0`; the three `Infinity` spellings map to the
infinities; otherwise parse a finite decimal literal. -/
def jsNumberCharsExt (cs : List Char) : Option JsNum :=
  let t := trimChars cs
  if t.isEmpty then some (JsNum.fin 0)
  else if t = "Infinity".data || t = "+Infinity".data then some JsNum.posInf
  else if t = "-Infinity".data then some JsNum.negInf
  else (parseDec t).map JsNum.fin

/-- `Number(v)` on a raw value, over `JsNum`. -/
def jsNumberExt : RawValue → Option JsNum
  | RawValue.num q => some (JsNum.fin q)
  | RawValue.null => some (JsNum.fin 0)
  | RawValue.undef => none
  | RawValue.str s => jsNumberCharsExt s.data

/-- The filter's numeric coercion over `JsNum` (App.tsx lines 115–122):
direct `Number(val)`; on `NaN`, strip non-numeric characters from the
string form and retry (the stripped form never spells an infinity). -/
def coerceWithStripExt (v : RawValue) : Option JsNum :=
  match jsNumberExt v with
  | some x => some x
  | none =>
    match v with
    | RawValue.str s => jsNumberCharsExt (s.data.filter keepNumChar)
    | _ => none

/-- `a ≤ b` on non-`NaN` JS numbers (the filter fails on `numVal < min`
and `numVal > max`, so a bound check passes exactly on this total
order, infinities included). -/
def jsNumLe : JsNum → JsNum → Bool
  | JsNum.negInf, _ => true
  | _, JsNum.posInf => true
  | JsNum.posInf, _ => false
  | JsNum.fin _, JsNum.negInf => false
  | JsNum.fin a, JsNum.fin b => decide (a ≤ b)

/-- Division of a bound by 100 (App.tsx lines 138–139 / 156–157);
`±Infinity / 100` stays `±Infinity` in JS. -/
def jsNumDiv100 : JsNum → JsNum
  | JsNum.fin q => JsNum.fin (qdiv q 100)
  | JsNum.posInf => JsNum.posInf
  | JsNum.negInf => JsNum.negInf

/-- Per-criterion row evaluation (App.tsx lines 95–176) over the
Infinity-aware numeric model; identical to `evalCriterion` except that
coerced numbers live in `JsNum`. -/
def evalCriterionExt (isDec : Bool) (row : Row) (c : Criterion) : Bool :=
  let val := rowGet row c.column
  let hMin := hasMinB c
  let hMax := hasMaxB c
  let hText := hasTextB c
  if !hMin && !hMax && !hText then true
  else if val == RawValue.undef || val == RawValue.null || val == RawValue.str "" then
    false
  else
    let numericOk :=
      if hMin || hMax then
        match coerceWithStripExt val with
        | none => false
        | some numVal =>
          let minOk :=
            if hMin then
              match coerceWithStripExt c.min with
              | none => false
              | some m => jsNumLe (if isDec then jsNumDiv100 m else m) numVal
            else true
          let maxOk :=
            if hMax then
              match coerceWithStripExt c.max with
              | none => false
              | some mx => jsNumLe numVal (if isDec then jsNumDiv100 mx else mx)
            else true
          minOk && maxOk
      else true
    let textOk :=
      if hText then
        match c.text with
        | some t => strContains (lowerStr (jsToString val)) (lowerStr t)
        | none => true
      else true
    numericOk && textOk

/-! ## Concrete example data used in the theorems -/

/-- The spec's scenario row `{Ticker:"A", Margin:0.5}`. -/
def exRowA : Row := [("Ticker", RawValue.str "A"), ("Margin", RawValue.num (mkRat 1 2))]

/-- The spec's scenario row `{Ticker:"B", Margin:0.2}`. -/
def exRowB : Row := [("Ticker", RawValue.str "B"), ("Margin", RawValue.num (mkRat 1 5))]

/-- The spec's scenario criterion `{column:"Margin", min:"30"}`. -/
def exCritMargin : Criterion := { id := "c1", column := "Margin", min := RawValue.str "30" }

/-- A one-column row with a numeric Margin cell. -/
def exMarginRow (q : ℚ) : Row := [("Margin", RawValue.num q)]

/-- Margin data whose classification flips once filtered: the full set
has median absolute value 0.5 while the subset above 1 has median 3. -/
def exData5 : List Row :=
  [exMarginRow (mkRat 1 2), exMarginRow (mkRat 1 2), exMarginRow (mkRat 1 2),
   exMarginRow 3, exMarginRow 3]

/-- The criterion `min = "100"` (meaning 100% against decimal data). -/
def exCrit100 : Criterion := { id := "c2", column := "Margin", min := RawValue.str "100" }

/-- Margin data whose classification is stable under this filtering. -/
def exStableRows : List Row := [exMarginRow 3, exMarginRow 5]

/-- The criterion `min = "1"`. -/
def exCrit1 : Criterion := { id := "c3", column := "Margin", min := RawValue.str "1" }

/-- A one-column row keyed `x`, for the sorting example. -/
def exXRow (v : RawValue) : Row := [("x", v)]

/-- Aggregate example: a 10, a null, an empty string and a non-numeric
string in column `v`. -/
def exAggRows : List Row :=
  [[("v", RawValue.num 10)], [("v", RawValue.null)],
   [("v", RawValue.str "")], [("v", RawValue.str "abc")]]

/-- A numeric range criterion `min = "-1"`, `max = "1"` on column `v`. -/
def exCritNA : Criterion :=
  { id := "c4", column := "v", min := RawValue.str "-1", max := RawValue.str "1" }

/-- A row whose `v` cell is the string `"N/A"`. -/
def exNARow : Row := [("v", RawValue.str "N/A")]

/-- A criterion whose `min` bound itself is the string `"N/A"`. -/
def exCritNABound : Criterion := { id := "c5", column := "v", min := RawValue.str "N/A" }

/-- A numeric `min` criterion on column `v`, for the error-handling
witness. -/
def exCritV1 : Criterion := { id := "c6", column := "v", min := RawValue.num 1 }

/-- A plain min/max criterion with numeric bounds on column `M`. -/
def exCritMinMax : Criterion :=
  { id := "c7", column := "M", min := RawValue.num 20, max := RawValue.num 40 }

/-- A row with `M = 0.3`. -/
def exMRow : Row := [("M", RawValue.num (mkRat 3 10))]

/-! ## Faithfulness of the executable arithmetic mirrors -/

/-- Helper: `mkRat` as a real division of casts. -/
theorem mkRat_eq_div' (n : ℤ) (d : ℕ) : mkRat n d = (n : ℚ) / (d : ℚ) := by
  rw [Rat.mkRat_eq_divInt, Rat.divInt_eq_div]
  norm_cast

/-- The executable mirror `qadd` is rational addition. -/
theorem qadd_eq (a b : ℚ) : qadd a b = a + b :=
  (Rat.add_def' a b).symm

/-- The executable mirror `qdiv` is rational division. -/
theorem qdiv_eq (a b : ℚ) : qdiv a b = a / b := by
  unfold qdiv
  rcases eq_or_ne b.num 0 with h0 | h0
  · rw [Rat.num_eq_zero.mp h0]
    simp [h0]
  · have key : (b.num.natAbs : ℤ) = b.num.sign * b.num := by
      rcases lt_or_gt_of_ne h0 with hn | hn
      · rw [Int.sign_eq_neg_one_of_neg hn, Int.ofNat_natAbs_of_nonpos (le_of_lt hn)]
        ring
      · rw [Int.sign_eq_one_of_pos hn, Int.natAbs_of_nonneg (le_of_lt hn)]
        ring
    have hd1 : ((a.den * b.num.natAbs : ℕ) : ℤ) ≠ 0 := by
      simp [a.den_nz, Int.natAbs_ne_zero, h0]
    have hd2 : (a.den : ℤ) * b.num ≠ 0 :=
      mul_ne_zero (Int.natCast_ne_zero.mpr a.den_nz) h0
    rw [Rat.mkRat_eq_divInt, Rat.div_def', Rat.divInt_eq_iff hd1 hd2]
    push_cast [key]
    ring

/-- The executable mirror `qsum` is `List.sum`. -/
theorem qsum_eq (l : List ℚ) : qsum l = l.sum := by
  induction l with
  | nil => rfl
  | cons a t ih => rw [qsum, List.foldr_cons, ← qsum, qadd_eq, ih, List.sum_cons]

/-- The executable mirror `scaleByPow10` is multiplication by an
integer power of ten. -/
theorem scaleByPow10_eq (q : ℚ) (z : ℤ) : scaleByPow10 q z = q * (10 : ℚ) ^ z := by
  unfold scaleByPow10
  have hq : (q.den : ℚ) ≠ 0 := Nat.cast_ne_zero.mpr q.den_nz
  split
  case isTrue h =>
    rw [mkRat_eq_div']
    conv_rhs => rw [← Rat.num_div_den q, ← Int.toNat_of_nonneg h, zpow_natCast]
    push_cast
    field_simp
  case isFalse h =>
    rw [mkRat_eq_div']
    have hz : z = -((-z).toNat : ℤ) := by omega
    conv_rhs => rw [← Rat.num_div_den q, hz]
    rw [zpow_neg, zpow_natCast]
    push_cast
    rw [div_mul_eq_div_div]
    field_simp

/-! ## List helper lemmas -/

/-- `all` only looks at members. -/
theorem all_congr_mem {α : Type} (l : List α) (f g : α → Bool)
    (h : ∀ a ∈ l, f a = g a) : l.all f = l.all g := by
  induction l with
  | nil => rfl
  | cons a t ih =>
    simp only [List.all_cons, h a (List.mem_cons_self a t)]
    rw [ih (fun b hb => h b (List.mem_cons_of_mem a hb))]

/-- Filtering twice by the same predicate filters once. -/
theorem filter_filter_self {α : Type} (p : α → Bool) (l : List α) :
    (l.filter p).filter p = l.filter p := by
  induction l with
  | nil => rfl
  | cons a t ih =>
    by_cases h : p a = true
    · simp [List.filter_cons, h, ih]
    · simp only [List.filter_cons, Bool.not_eq_true] at h ⊢
      rw [h]
      exact ih

/-- Filter after map, when the predicate is blind to the mapping. -/
theorem filter_map_comm {α : Type} (g : α → α) (p : α → Bool) (l : List α)
    (h : ∀ a, p (g a) = p a) : (l.map g).filter p = (l.filter p).map g := by
  induction l with
  | nil => rfl
  | cons a t ih =>
    by_cases hp : p a = true
    · simp [List.filter_cons, h, hp, ih]
    · simp only [Bool.not_eq_true] at hp
      simp [List.filter_cons, h, hp, ih]

/-- Membership in an insertion step. -/
theorem mem_insertSorted {α : Type} (le : α → α → Bool) (x y : α) (l : List α) :
    y ∈ insertSorted le x l ↔ y = x ∨ y ∈ l := by
  induction l with
  | nil => simp [insertSorted]
  | cons a t ih =>
    by_cases h : le x a = true
    · simp [insertSorted, h]
    · simp only [Bool.not_eq_true] at h
      simp only [insertSorted, h, Bool.false_eq_true, if_false, List.mem_cons, ih]
      tauto

/-- Membership is preserved by the insertion sort. -/
theorem mem_insertionSortB {α : Type} (le : α → α → Bool) (y : α) (l : List α) :
    y ∈ insertionSortB le l ↔ y ∈ l := by
  induction l with
  | nil => simp [insertionSortB]
  | cons a t ih =>
    rw [insertionSortB, mem_insertSorted, ih]
    simp

/-- Length of an insertion step. -/
theorem length_insertSorted {α : Type} (le : α → α → Bool) (x : α) (l : List α) :
    (insertSorted le x l).length = l.length + 1 := by
  induction l with
  | nil => rfl
  | cons a t ih =>
    by_cases h : le x a = true
    · simp [insertSorted, h]
    · simp only [Bool.not_eq_true] at h
      simp [insertSorted, h, ih]

/-- The insertion sort preserves length. -/
theorem length_insertionSortB {α : Type} (le : α → α → Bool) (l : List α) :
    (insertionSortB le l).length = l.length := by
  induction l with
  | nil => rfl
  | cons a t ih =>
    rw [insertionSortB, length_insertSorted, ih, List.length_cons]

/-- An in-bounds `nthD` entry is a member. -/
theorem nthD_mem (l : List ℚ) (n : ℕ) (h : n < l.length) : nthD l n ∈ l := by
  induction l generalizing n with
  | nil => simp at h
  | cons a t ih =>
    cases n with
    | zero => simp [nthD]
    | succ m =>
      simp only [nthD]
      exact List.mem_cons_of_mem a (ih m (by simpa using h))

/-- An element that the order rejects everywhere is inserted at the
end. -/
theorem insertSorted_eq_append {α : Type} (le : α → α → Bool) (x : α) (l : List α)
    (h : ∀ y ∈ l, le x y = false) : insertSorted le x l = l ++ [x] := by
  induction l with
  | nil => rfl
  | cons a t ih =>
    rw [insertSorted, h a (List.mem_cons_self a t)]
    simp only [Bool.false_eq_true, if_false, List.cons_append, List.cons.injEq, true_and]
    exact ih (fun y hy => h y (List.mem_cons_of_mem a hy))

/-- An insertion step keeps the property "no marked element before an
unmarked one", given that marked elements never test `le` against
anything and unmarked elements always test `le` against marked ones. -/
theorem pairwise_mark_insertSorted {α : Type} (m : α → Bool) (le : α → α → Bool)
    (hA : ∀ x y, m x = true → le x y = false)
    (hB : ∀ x y, m x = false → m y = true → le x y = true)
    (x : α) (l : List α)
    (hl : List.Pairwise (fun a b => (!(m a) || m b) = true) l) :
    List.Pairwise (fun a b => (!(m a) || m b) = true) (insertSorted le x l) := by
  by_cases hm : m x = true
  · rw [insertSorted_eq_append le x l (fun y _ => hA x y hm)]
    rw [List.pairwise_append]
    refine ⟨hl, List.pairwise_singleton _ x, ?_⟩
    intro a _ b hb
    rw [List.mem_singleton] at hb
    subst hb
    simp [hm]
  · simp only [Bool.not_eq_true] at hm
    induction l with
    | nil => exact List.pairwise_singleton _ x
    | cons a t ih =>
      rcases List.pairwise_cons.mp hl with ⟨ha, ht⟩
      by_cases hle : le x a = true
      · rw [insertSorted, hle]
        simp only [if_true]
        rw [List.pairwise_cons]
        refine ⟨?_, hl⟩
        intro b _
        simp [hm]
      · simp only [Bool.not_eq_true] at hle
        rw [insertSorted, hle]
        simp only [Bool.false_eq_true, if_false]
        have hma : m a = false := by
          by_contra hma
          rw [Bool.not_eq_false] at hma
          rw [hB x a hm hma] at hle
          simp at hle
        rw [List.pairwise_cons]
        constructor
        · intro b _
          simp [hma]
        · exact ih ht

/-- The insertion sort establishes "no marked element before an
unmarked one" whenever the comparator sinks marked elements. -/
theorem pairwise_mark_insertionSortB {α : Type} (m : α → Bool) (le : α → α → Bool)
    (hA : ∀ x y, m x = true → le x y = false)
    (hB : ∀ x y, m x = false → m y = true → le x y = true)
    (l : List α) :
    List.Pairwise (fun a b => (!(m a) || m b) = true) (insertionSortB le l) := by
  induction l with
  | nil => exact List.Pairwise.nil
  | cons a t ih =>
    exact pairwise_mark_insertSorted m le hA hB a (insertionSortB le t) ih

/-- `takeWhile` of a list the predicate rejects everywhere is empty. -/
theorem takeWhile_eq_nil_of {α : Type} (p : α → Bool) (l : List α)
    (h : ∀ a ∈ l, p a = false) : l.takeWhile p = [] := by
  cases l with
  | nil => rfl
  | cons a t =>
    rw [List.takeWhile_cons, h a (List.mem_cons_self a t)]
    simp

/-- `dropWhile` of a list the predicate rejects everywhere drops
nothing. -/
theorem dropWhile_eq_self_of {α : Type} (p : α → Bool) (l : List α)
    (h : ∀ a ∈ l, p a = false) : l.dropWhile p = l := by
  cases l with
  | nil => rfl
  | cons a t =>
    rw [List.dropWhile_cons, h a (List.mem_cons_self a t)]
    simp

/-- Characters surviving the trim come from the original list. -/
theorem mem_trimChars (cs : List Char) (c : Char) (h : c ∈ trimChars cs) : c ∈ cs := by
  unfold trimChars at h
  rw [List.mem_reverse] at h
  have h2 := (List.dropWhile_sublist isWsChar).mem h
  rw [List.mem_reverse] at h2
  exact (List.dropWhile_sublist isWsChar).mem h2

/-- An unsigned parse fails on input with no digit and no dot. -/
theorem parseUnsignedDec_eq_none (cs : List Char)
    (h : ∀ c ∈ cs, c.isDigit = false ∧ c ≠ '.') : parseUnsignedDec cs = none := by
  unfold parseUnsignedDec
  rw [takeWhile_eq_nil_of Char.isDigit cs (fun c hc => (h c hc).1),
      dropWhile_eq_self_of Char.isDigit cs (fun c hc => (h c hc).1)]
  cases cs with
  | nil => simp
  | cons c rest =>
    have hc := h c (List.mem_cons_self c rest)
    simp [hc.2]

/-- A signed parse fails on input with no digit, no dot, no minus. -/
theorem parseDec_eq_none (cs : List Char)
    (h : ∀ c ∈ cs, c.isDigit = false ∧ c ≠ '.' ∧ c ≠ '-') : parseDec cs = none := by
  cases cs with
  | nil =>
    rw [parseDec]
    exact parseUnsignedDec_eq_none [] (by simp)
  | cons c rest =>
    have hc := h c (List.mem_cons_self c rest)
    rw [parseDec]
    by_cases hplus : c = '+'
    · rw [if_pos hplus]
      exact parseUnsignedDec_eq_none rest
        (fun a ha => ⟨(h a (List.mem_cons_of_mem c ha)).1, (h a (List.mem_cons_of_mem c ha)).2.1⟩)
    · rw [if_neg hplus, if_neg hc.2.2]
      exact parseUnsignedDec_eq_none (c :: rest)
        (fun a ha => ⟨(h a ha).1, (h a ha).2.1⟩)

/-- Away from the three `Infinity` literal spellings, the
Infinity-aware `Number()` model agrees with the finite one. -/
theorem jsNumberCharsExt_agrees (cs : List Char)
    (h1 : trimChars cs ≠ "Infinity".data) (h2 : trimChars cs ≠ "+Infinity".data)
    (h3 : trimChars cs ≠ "-Infinity".data) :
    jsNumberCharsExt cs = (jsNumberChars cs).map JsNum.fin := by
  rw [jsNumberCharsExt, jsNumberChars]
  by_cases he : (trimChars cs).isEmpty = true
  · rw [if_pos he, if_pos he]
    rfl
  · rw [if_neg he, if_neg he]
    rw [if_neg (by simp [h1, h2]), if_neg (by simp [h3])]

/-- The Infinity-aware filter coercion maps any string without digit,
dot or minus characters — other than the `Infinity` spellings — to `0`:
either the trimmed string is empty (`Number` gives `0` directly) or the
parse fails and the strip-retry leaves the empty string, which coerces
to `0`. -/
theorem coerceWithStripExt_of_no_numchar (s : String)
    (h : ∀ c ∈ s.data, c.isDigit = false ∧ c ≠ '.' ∧ c ≠ '-')
    (hinf : trimChars s.data ≠ "Infinity".data ∧ trimChars s.data ≠ "+Infinity".data) :
    coerceWithStripExt (RawValue.str s) = some (JsNum.fin 0) := by
  have hneg : trimChars s.data ≠ "-Infinity".data := by
    intro heq
    have hmem : '-' ∈ trimChars s.data := by
      rw [heq]
      exact List.mem_cons_self '-' _
    exact (h '-' (mem_trimChars s.data '-' hmem)).2.2 rfl
  rw [coerceWithStripExt, jsNumberExt,
    jsNumberCharsExt_agrees s.data hinf.1 hinf.2 hneg, jsNumberChars]
  by_cases he : (trimChars s.data).isEmpty = true
  · rw [if_pos he]
    rfl
  · rw [if_neg he]
    rw [parseDec_eq_none (trimChars s.data) (fun c hc => h c (mem_trimChars s.data c hc))]
    have hfilter : s.data.filter keepNumChar = [] := by
      apply List.filter_eq_nil_iff.mpr
      intro c hc
      rcases h c hc with ⟨h1, h2, h3⟩
      simp [keepNumChar, h1, h2, h3]
    rw [hfilter]
    rfl

/-! ## Claims -/

/-- Claim C7: under either sort direction, every row whose value at the
sort column is missing (null, undefined or the empty string) is ordered
after every row with a non-missing value, and sorting
`[{x:5},{x:null},{x:1}]` ascending by `x` yields `[{x:1},{x:5},{x:null}]`. -/
theorem missing_values_sort_last (data : List Row) (col : String) (asc : Bool) :
    List.Pairwise
      (fun a b => (!(isMissingB (rowGet a col)) || isMissingB (rowGet b col)) = true)
      (sortedRows (some (col, asc)) data) ∧
    sortedRows (some ("x", true))
        [exXRow (RawValue.num 5), exXRow RawValue.null, exXRow (RawValue.num 1)] =
      [exXRow (RawValue.num 1), exXRow (RawValue.num 5), exXRow RawValue.null] := by
  constructor
  · rw [sortedRows]
    apply pairwise_mark_insertionSortB (fun r => isMissingB (rowGet r col)) (sortLe asc col)
    · intro x y hm
      simp [sortLe, hm]
    · intro x y hmx hmy
      simp [sortLe, hmx, hmy]
  · decide

/-- Claim C8: in the summary statistics, a null or empty-string cell is
not discarded — `Number` coerces it to `0` and it enters the column's
average and median, lowering them — while an `undefined` cell or a
non-numeric string coerces to `NaN` and is discarded. -/
theorem null_cells_average_as_zero (r : Row) (rs : List Row) (col : String)
    (h : rowGet r col = RawValue.null ∨ rowGet r col = RawValue.str "") :
    aggValues (r :: rs) col = 0 :: aggValues rs col ∧
    jsNumber RawValue.undef = none ∧
    jsNumberStr "abc" = none ∧
    aggValues exAggRows "v" = [10, 0, 0] ∧
    aggAverage exAggRows "v" = some (mkRat 10 3) ∧
    aggMedian exAggRows "v" = some 0 ∧
    aggAverage [[("v", RawValue.num 10)], [("v", RawValue.str "abc")]] "v" = some 10 ∧
    mkRat 10 3 < 10 ∧ (0 : ℚ) < 10 := by
  refine ⟨?_, by decide, by decide, by decide, by decide, by decide, by decide,
    by decide, by decide⟩
  have hz : jsNumber (rowGet r col) = some 0 := by
    rcases h with h | h <;> rw [h] <;> rfl
  rw [aggValues, aggValues, List.map_cons, hz, List.filterMap_cons]
  rfl

/-- Claim C8 witness: the general equation applied to a concrete row
whose `v` cell is null. -/
theorem null_cells_average_as_zero_witness :
    aggValues ([("v", RawValue.null)] :: [[("v", RawValue.num 7)]]) "v" =
      0 :: aggValues [[("v", RawValue.num 7)]] "v" :=
  (null_cells_average_as_zero [("v", RawValue.null)] [[("v", RawValue.num 7)]] "v"
    (Or.inl (by decide))).1

/-- Claim C10: the classifier's median (used against both the
percentage threshold 2 and the currency threshold 10000) is the element
at index `⌊n/2⌋` of the ascending-sorted absolute values — the upper
middle for even-length samples — never the mean of the two middle
elements that the aggregate median uses, and this flips the
classification of `[1.9, 2]` and `[9999, 10000]` relative to the
aggregate-median rule. -/
theorem classifier_median_is_upper_middle :
    (∀ vs : List ℚ, medianAbs vs =
        nthD (insertionSortB qle (vs.map (fun q => |q|))) (vs.length / 2)) ∧
    medianAbs [mkRat 19 10, 2] = 2 ∧
    aggMedianList [mkRat 19 10, 2] = mkRat 39 20 ∧
    mkRat 39 20 < 2 ∧
    detectColumnFormat "margin" [RawValue.num (mkRat 19 10), RawValue.num 2] =
      FormatTag.percentage ∧
    medianAbs [9999, 10000] = 10000 ∧
    aggMedianList [9999, 10000] = mkRat 19999 2 ∧
    mkRat 19999 2 < 10000 ∧
    detectColumnFormat "Price" [RawValue.num 9999, RawValue.num 10000] =
      FormatTag.currency :=
  ⟨fun vs => rfl, by decide, by decide, by decide, by decide, by decide, by decide,
    by decide, by decide⟩

/-- Claim C1 counterexample: filtering `Margin` data
`[0.5, 0.5, 0.5, 3, 3]` by `min = "100"` keeps `[3, 3]` (the full set
classifies as `percentage_decimal`, so the bound becomes 1), but
filtering that output again drops everything (the subset reclassifies
as `percentage`, so the bound stays 100) — `filter` is not idempotent. -/
theorem filter_not_idempotent_example :
    filteredData exData5 [exCrit100] = [exMarginRow 3, exMarginRow 3] ∧
    detectColumnFormat "Margin" (appColumnValues exData5 "Margin") =
      FormatTag.percentage_decimal ∧
    detectColumnFormat "Margin"
        (appColumnValues (filteredData exData5 [exCrit100]) "Margin") =
      FormatTag.percentage ∧
    filteredData (filteredData exData5 [exCrit100]) [exCrit100] = [] ∧
    filteredData (filteredData exData5 [exCrit100]) [exCrit100] ≠
      filteredData exData5 [exCrit100] :=
  ⟨by decide, by decide, by decide, by decide, by decide⟩

/-- Claim C4 counterexample: the column name contains `"margin"` and
the single sample `2` lies in the closed interval `[-2, 2]`, yet the
classifier returns `percentage` (the median of absolute values is `2`,
not strictly below `2`). -/
theorem margin_boundary_value_classifies_percentage :
    detectColumnFormat "margin" [RawValue.num 2] = FormatTag.percentage ∧
    detectColumnFormat "margin" [RawValue.num 2] ≠ FormatTag.percentage_decimal ∧
    (-2 : ℚ) ≤ 2 ∧ (2 : ℚ) ≤ 2 :=
  ⟨by decide, by decide, by decide, by decide⟩

/-- Claim C3: over the same row-set snapshot, the classification the
filter uses to scale bounds for a column (`detectColumnFormat` over the
values App.tsx extracts) is exactly the classification `createFormatMap`
hands the table renderer for that column. -/
theorem filter_and_display_classification_agree (first : Row) (rest : List Row)
    (col : String) (hcol : (rowKeys first).contains col = true) :
    createFormatMap (first :: rest) col =
      some (detectColumnFormat col (appColumnValues (first :: rest) col)) := by
  simp only [createFormatMap]
  rw [if_pos hcol]
  rfl

/-- Claim C3 witness: the agreement at the spec's scenario snapshot. -/
theorem filter_and_display_classification_agree_witness :
    createFormatMap [exRowA, exRowB] "Margin" =
      some (detectColumnFormat "Margin" (appColumnValues [exRowA, exRowB] "Margin")) :=
  filter_and_display_classification_agree exRowA [exRowB] "Margin" (by decide)

/-- Claim C2: when the criterion column classifies as
`percentage_decimal` the `min`/`max` bounds — never the cell value —
are divided by 100 before the inclusive comparison, and in the spec's
scenario (`Margin` data `[0.5, 0.2]`, `min = "30"`) the classification
is `percentage_decimal`, the bound becomes `0.30`, and exactly row A
passes. -/
theorem percentage_decimal_scales_bounds (c : Criterion) (row : Row) (q m mx : ℚ)
    (hmin : hasMinB c = true) (hmax : hasMaxB c = true) (htext : hasTextB c = false)
    (hval : rowGet row c.column = RawValue.num q)
    (hm : coerceWithStrip c.min = some m) (hmx : coerceWithStrip c.max = some mx) :
    (evalCriterion true row c = (decide (m / 100 ≤ q) && decide (q ≤ mx / 100))) ∧
    (evalCriterion false row c = (decide (m ≤ q) && decide (q ≤ mx))) ∧
    detectColumnFormat "Margin" (appColumnValues [exRowA, exRowB] "Margin") =
      FormatTag.percentage_decimal ∧
    decimalCols [exRowA, exRowB] [exCritMargin] = ["Margin"] ∧
    filteredData [exRowA, exRowB] [exCritMargin] = [exRowA] := by
  have hq : coerceWithStrip (RawValue.num q) = some q := rfl
  refine ⟨?_, ?_, by decide, by decide, by decide⟩
  · rw [← qdiv_eq m 100, ← qdiv_eq mx 100]
    simp [evalCriterion, hmin, hmax, htext, hval, hm, hmx, hq]
  · simp [evalCriterion, hmin, hmax, htext, hval, hm, hmx, hq]

/-- Claim C2 witness: the scaling equations at a concrete criterion
(`min = 20`, `max = 40`) and row (`M = 0.3`). -/
theorem percentage_decimal_scales_bounds_witness :
    evalCriterion true exMRow exCritMinMax =
      (decide ((20 : ℚ) / 100 ≤ mkRat 3 10) && decide ((mkRat 3 10 : ℚ) ≤ 40 / 100)) :=
  (percentage_decimal_scales_bounds exCritMinMax exMRow (mkRat 3 10) 20 40
    (by decide) (by decide) (by decide) (by decide) (by decide) (by decide)).1

/-- Claim C6: evaluation of an effective criterion is a total boolean
function of the row — a missing, null or empty-string cell fails the
criterion, and when a numeric bound is present a cell whose coercion
(direct, then strip-and-retry) fails makes the row fail rather than
error. -/
theorem missing_or_unparsable_cell_fails (c : Criterion) (row : Row) (isDec : Bool)
    (heff : isEffective c = true) :
    (isMissingB (rowGet row c.column) = true → evalCriterion isDec row c = false) ∧
    ((hasMinB c || hasMaxB c) = true →
      coerceWithStrip (rowGet row c.column) = none →
      evalCriterion isDec row c = false) := by
  have hguard : (!hasMinB c && !hasMaxB c && !hasTextB c) = false := by
    cases hm : hasMinB c <;> cases hx : hasMaxB c <;> cases ht : hasTextB c <;>
      simp_all [isEffective]
  have key1 : isMissingB (rowGet row c.column) = true →
      evalCriterion isDec row c = false := by
    intro hmiss
    have hcond : (rowGet row c.column == RawValue.undef ||
        rowGet row c.column == RawValue.null ||
        rowGet row c.column == RawValue.str "") = true := by
      cases hv : rowGet row c.column <;> simp_all [isMissingB]
    simp [evalCriterion, hguard, hcond]
  refine ⟨key1, ?_⟩
  intro hnum hcoerce
  by_cases hmiss : isMissingB (rowGet row c.column) = true
  · exact key1 hmiss
  · have hcond : (rowGet row c.column == RawValue.undef ||
        rowGet row c.column == RawValue.null ||
        rowGet row c.column == RawValue.str "") = false := by
      cases hv : rowGet row c.column <;> simp_all [isMissingB]
    simp [evalCriterion, hguard, hcond, hnum, hcoerce]

/-- Claim C6 witness: a row with no `v` key fails the effective
criterion `min = 1` on `v`. -/
theorem missing_or_unparsable_cell_fails_witness :
    evalCriterion false [] exCritV1 = false :=
  (missing_or_unparsable_cell_fails exCritV1 [] false (by decide)).1 (by decide)

/-- Claim C9 counterexample: the cell `"Infinity"` is a non-empty
string with no digit, dot or minus character, and the criterion's
scaled bounds satisfy `min = -1 ≤ 0 ≤ 1 = max`, yet JS `Number`
coerces the cell directly to `Infinity` (the strip-retry never runs),
the cell exceeds the finite max, and the row is excluded instead of
passing with value `0`. -/
theorem infinity_string_fails_finite_max :
    (∀ ch ∈ "Infinity".data, ch.isDigit = false ∧ ch ≠ '.' ∧ ch ≠ '-') ∧
    "Infinity" ≠ "" ∧
    (-1 : ℚ) ≤ 0 ∧ (0 : ℚ) ≤ 1 ∧
    jsNumberCharsExt "Infinity".data = some JsNum.posInf ∧
    coerceWithStripExt (RawValue.str "Infinity") = some JsNum.posInf ∧
    coerceWithStripExt (RawValue.str "Infinity") ≠ some (JsNum.fin 0) ∧
    evalCriterionExt false [("v", RawValue.str "Infinity")] exCritNA = false :=
  ⟨by decide, by decide, by decide, by decide, by decide, by decide, by decide,
    by decide⟩

/-- Claim C9 (amended): a non-empty cell string with no digit, dot or
minus characters — excluding the strings that trim to a JS `Infinity`
literal, which coerce to `Infinity` directly and fail any finite max —
coerces to `0` (the strip leaves the empty string, and `Number("")` is
`0`), so with numeric bounds present the row passes exactly when the
scaled min is at most `0` and `0` is at most the scaled max; the bound
strings go through the same stripping. -/
theorem no_digit_string_cell_coerces_to_zero (s : String) (c : Criterion) (row : Row)
    (isDec : Bool) (m mx : ℚ)
    (hch : ∀ ch ∈ s.data, ch.isDigit = false ∧ ch ≠ '.' ∧ ch ≠ '-')
    (hinf : trimChars s.data ≠ "Infinity".data ∧ trimChars s.data ≠ "+Infinity".data)
    (hs : s ≠ "")
    (hval : rowGet row c.column = RawValue.str s)
    (hmin : hasMinB c = true) (hmax : hasMaxB c = true) (htext : hasTextB c = false)
    (hm : coerceWithStripExt c.min = some (JsNum.fin m))
    (hmx : coerceWithStripExt c.max = some (JsNum.fin mx)) :
    coerceWithStripExt (RawValue.str s) = some (JsNum.fin 0) ∧
    evalCriterionExt isDec row c =
      (decide ((if isDec then m / 100 else m) ≤ 0) &&
       decide ((0 : ℚ) ≤ (if isDec then mx / 100 else mx))) ∧
    evalCriterionExt false exNARow exCritNA = true ∧
    evalCriterionExt false [("v", RawValue.num 0)] exCritNABound = true := by
  have h0 := coerceWithStripExt_of_no_numchar s hch hinf
  refine ⟨h0, ?_, by decide, by decide⟩
  rw [← qdiv_eq m 100, ← qdiv_eq mx 100]
  cases isDec
  · simp [evalCriterionExt, hmin, hmax, htext, hval, hm, hmx, h0, hs, jsNumLe,
      jsNumDiv100]
  · simp [evalCriterionExt, hmin, hmax, htext, hval, hm, hmx, h0, hs, jsNumLe,
      jsNumDiv100]

/-- Claim C9 witness: the `"N/A"` cell against bounds `[-1, 1]`. -/
theorem no_digit_string_cell_coerces_to_zero_witness :
    coerceWithStripExt (RawValue.str "N/A") = some (JsNum.fin 0) :=
  (no_digit_string_cell_coerces_to_zero "N/A" exCritNA exNARow false (-1) 1
    (by decide) (by decide) (by decide) (by decide) (by decide) (by decide)
    (by decide) (by decide) (by decide)).1

/-- The `filteredData` computation, with its local bindings unfolded. -/
theorem filteredData_eq (data : List Row) (criteria : List Criterion) :
    filteredData data criteria =
      if (criteria.filter isEffective).isEmpty then data
      else data.filter (fun row => (criteria.filter isEffective).all
        (fun c => evalCriterion
          ((decimalCols data (criteria.filter isEffective)).contains c.column) row c)) :=
  rfl

/-- Changing only `active` changes nothing the effectiveness test
reads. -/
theorem isEffective_setActive (c : Criterion) (b : Bool) :
    isEffective { c with active := b } = isEffective c :=
  rfl

/-- Changing only `active` changes nothing the evaluator reads. -/
theorem evalCriterion_setActive (d : Bool) (row : Row) (c : Criterion) (b : Bool) :
    evalCriterion d row { c with active := b } = evalCriterion d row c :=
  rfl

/-- Claim C5: the filtered rows depend only on the effective criteria —
rewriting every criterion's `active` flag (by an arbitrary function,
hence any single flip) leaves the result unchanged, and so does
restricting the criteria list to its effective members. -/
theorem active_flag_never_gates_filtering (data : List Row) (criteria : List Criterion)
    (f : Criterion → Bool) :
    filteredData data (criteria.map fun c => { c with active := f c }) =
      filteredData data criteria ∧
    filteredData data (criteria.filter isEffective) = filteredData data criteria := by
  constructor
  · rw [filteredData_eq, filteredData_eq]
    rw [filter_map_comm (fun c => { c with active := f c }) isEffective criteria (fun c => rfl)]
    have hemp : ((criteria.filter isEffective).map fun c => { c with active := f c }).isEmpty =
        (criteria.filter isEffective).isEmpty := by
      cases criteria.filter isEffective <;> rfl
    rw [hemp]
    have hdec : decimalCols data
          ((criteria.filter isEffective).map fun c => { c with active := f c }) =
        decimalCols data (criteria.filter isEffective) := by
      rw [decimalCols, decimalCols]
      rw [filter_map_comm (fun c => { c with active := f c }) _
            (criteria.filter isEffective) (fun c => rfl), List.map_map]
      rfl
    rw [hdec]
    have hall : ∀ row,
        (((criteria.filter isEffective).map fun c => { c with active := f c }).all
          (fun c => evalCriterion
            ((decimalCols data (criteria.filter isEffective)).contains c.column) row c)) =
        ((criteria.filter isEffective).all
          (fun c => evalCriterion
            ((decimalCols data (criteria.filter isEffective)).contains c.column) row c)) := by
      intro row
      rw [List.all_map]
      rfl
    simp only [hall]
  · rw [filteredData_eq, filteredData_eq, filter_filter_self]

/-- Claim C1 (amended): `filter` is idempotent whenever re-deriving each
effective criterion column's decimal classification from the filtered
subset agrees with the classification over the full row set (the
counterexample shows the unconditional statement fails when the
classification flips). -/
theorem filter_idempotent_of_stable_classification (data : List Row)
    (criteria : List Criterion)
    (hstable : ∀ c ∈ criteria.filter isEffective,
      (decimalCols (filteredData data criteria) (criteria.filter isEffective)).contains
          c.column =
        (decimalCols data (criteria.filter isEffective)).contains c.column) :
    filteredData (filteredData data criteria) criteria = filteredData data criteria := by
  by_cases he : (criteria.filter isEffective).isEmpty = true
  · have h1 : filteredData data criteria = data := by rw [filteredData_eq, if_pos he]
    rw [h1]
    exact h1
  · have h1 : filteredData data criteria = data.filter
        (fun row => (criteria.filter isEffective).all
          (fun c => evalCriterion
            ((decimalCols data (criteria.filter isEffective)).contains c.column) row c)) := by
      rw [filteredData_eq, if_neg he]
    have h2 : filteredData (filteredData data criteria) criteria =
        (filteredData data criteria).filter
          (fun row => (criteria.filter isEffective).all
            (fun c => evalCriterion
              ((decimalCols (filteredData data criteria)
                (criteria.filter isEffective)).contains c.column) row c)) := by
      rw [filteredData_eq (filteredData data criteria) criteria, if_neg he]
    rw [h2]
    have hfun : (fun row => (criteria.filter isEffective).all
          (fun c => evalCriterion
            ((decimalCols (filteredData data criteria)
              (criteria.filter isEffective)).contains c.column) row c)) =
        (fun row => (criteria.filter isEffective).all
          (fun c => evalCriterion
            ((decimalCols data (criteria.filter isEffective)).contains c.column) row c)) := by
      funext row
      apply all_congr_mem
      intro c hc
      rw [hstable c hc]
    rw [hfun]
    conv_lhs => rw [h1]
    rw [filter_filter_self]
    exact h1.symm

/-- Claim C1 witness: Margin data `[3, 5]` with `min = "1"` classifies
as whole-number percentage on both passes, and filtering twice equals
filtering once. -/
theorem filter_idempotent_of_stable_classification_witness :
    filteredData (filteredData exStableRows [exCrit1]) [exCrit1] =
      filteredData exStableRows [exCrit1] :=
  filter_idempotent_of_stable_classification exStableRows [exCrit1] (by decide)

/-- Claim C4 (amended): for a column whose lowercased name contains
`"margin"` and none of the ratio/multiple keywords, with at least one
numeric sample, the tag is `percentage_decimal` exactly when the
classifier's median of absolute values is strictly below 2 (and
`percentage` otherwise); in particular, numeric samples drawn from the
open interval `(-2, 2)` always give `percentage_decimal` (the
counterexample shows the closed interval `[-2, 2]` does not). -/
theorem margin_classification_iff_median_below_two (name : String)
    (values : List RawValue)
    (hmargin : strContains (lowerStr name) "margin" = true)
    (hratio : ratioNameHit (lowerStr name) = false) :
    (detectNumeric values ≠ [] →
      (detectColumnFormat name values = FormatTag.percentage_decimal ↔
        medianAbs (detectNumeric values) < 2)) ∧
    (detectColumnFormat name values = FormatTag.percentage_decimal ∨
      detectColumnFormat name values = FormatTag.percentage) ∧
    (values ≠ [] → (∀ v ∈ values, ∃ q : ℚ, v = RawValue.num q ∧ |q| < 2) →
      detectColumnFormat name values = FormatTag.percentage_decimal) := by
  have hpct : pctNameHit (lowerStr name) = true := by
    rw [pctNameHit, hmargin]
    simp
  have hdet : detectColumnFormat name values =
      (if (!(detectNumeric values).isEmpty &&
            decide (medianAbs (detectNumeric values) < 2)) = true
       then FormatTag.percentage_decimal else FormatTag.percentage) := by
    simp only [detectColumnFormat, hratio, hpct]
    simp
  have key : detectNumeric values ≠ [] →
      (detectColumnFormat name values = FormatTag.percentage_decimal ↔
        medianAbs (detectNumeric values) < 2) := by
    intro hne
    have hfalse : (detectNumeric values).isEmpty = false := by
      cases h : detectNumeric values with
      | nil => exact absurd h hne
      | cons a t => rfl
    rw [hdet, hfalse]
    by_cases hmed : medianAbs (detectNumeric values) < 2 <;> simp [hmed]
  refine ⟨key, ?_, ?_⟩
  · rw [hdet]
    split <;> simp
  · intro hne hall
    have hnonempty : detectNumeric values ≠ [] := by
      cases values with
      | nil => exact absurd rfl hne
      | cons v vs =>
        rcases hall v (List.mem_cons_self v vs) with ⟨qv, hv, _⟩
        have hmem : qv ∈ detectNumeric (v :: vs) := by
          rw [detectNumeric, List.mem_filterMap]
          exact ⟨v, List.mem_cons_self v vs, by rw [hv]; rfl⟩
        exact List.ne_nil_of_mem hmem
    have habs : ∀ x ∈ detectNumeric values, |x| < 2 := by
      intro x hx
      rw [detectNumeric, List.mem_filterMap] at hx
      rcases hx with ⟨v, hv, hcv⟩
      rcases hall v hv with ⟨qv, hq, hqlt⟩
      rw [hq, detectCoerce] at hcv
      injection hcv with h
      rw [← h]
      exact hqlt
    have hmedlt : medianAbs (detectNumeric values) < 2 := by
      rw [medianAbs]
      have hlen : (detectNumeric values).length / 2 <
          (insertionSortB qle ((detectNumeric values).map fun q => |q|)).length := by
        rw [length_insertionSortB, List.length_map]
        exact Nat.div_lt_self (List.length_pos.mpr hnonempty) (by norm_num)
      have hmem := nthD_mem _ _ hlen
      rw [mem_insertionSortB, List.mem_map] at hmem
      rcases hmem with ⟨x, hx, hxe⟩
      rw [← hxe]
      exact habs x hx
    exact (key hnonempty).mpr hmedlt

/-- Claim C4 witness: the spec's `Margin` column over `[0.5, 0.2]`
classifies as `percentage_decimal` through the open-interval corollary. -/
theorem margin_classification_iff_median_below_two_witness :
    detectColumnFormat "Margin" [RawValue.num (mkRat 1 2), RawValue.num (mkRat 1 5)] =
      FormatTag.percentage_decimal :=
  (margin_classification_iff_median_below_two "Margin"
      [RawValue.num (mkRat 1 2), RawValue.num (mkRat 1 5)] (by decide) (by decide)).2.2
    (by decide)
    (by
      intro v hv
      rcases List.mem_cons.mp hv with h | hv2
      · exact ⟨mkRat 1 2, h, by decide⟩
      · rcases List.mem_cons.mp hv2 with h | h
        · exact ⟨mkRat 1 5, h, by decide⟩
        · simp at h)
